import Mathlib

/-!
# Behaviour-tree concurrency layer: `Async` and the periodic `Ticker`

A shallow embedding of `async.go` (package `behaviortree`) and of the ticker
exercised by `ticker_test.go`.

* Go function values and interfaces that may be `nil` are `Option`s.
* A `Tick` is a Go closure: it may keep state, so it is a state-passing function
  over a world `σ`; it either returns `(Status, error)` or panics, with a value
  that may itself be nil.
* The adapter returned by `Async` is a closure over `mutex` and `done`.  The
  mutex serialises the wrapper, so one wrapper call is one atomic transition;
  the goroutine started by the wrapper is a separate process whose steps
  interleave freely with the calls.
-/

namespace behaviortree

/-! ## Data model -/

/-- Modelled from the spec: `type Status` and its constants `Running`, `Success`
and `Failure` are declared in a file of the package that is not embedded here.  The spec names three
outcomes compared by value; `ticker_test.go` returns the literal `0` as a
`Status`, so the type is an integer type.  The spec does not fix the codes of
the three constants: they are taken pairwise distinct, in the order the spec
lists them. -/
structure Status where
  code : Int
deriving DecidableEq, Repr

/-- Modelled from the spec: the outcome "work not yet concluded". -/
def Running : Status := ⟨1⟩

/-- Modelled from the spec: the outcome "work concluded favorably". -/
def Success : Status := ⟨2⟩

/-- Modelled from the spec: the outcome "work concluded unfavorably". -/
def Failure : Status := ⟨3⟩

/-- A non-nil Go `error` value, observed through its `Error()` string. -/
structure GoError where
  msg : String
deriving DecidableEq, Repr

/-- Go's `error` interface: `none` is `nil`. -/
abbrev error := Option GoError

/-- Values a goroutine can panic with, together with their `%+v` rendering by
package `fmt` (a library outside this repository). -/
class GoValue (ρ : Type) where
  plusV : ρ → String

/-- What one invocation `tick(children)` does when it comes back: it returns a
pair or it panics.  The value of a panic is an `interface{}`: `r = none` is the
nil interface, which is what `recover()` reports for `panic(nil)` under the
panic semantics before Go 1.21 (a `go` directive up to 1.20, or
`GODEBUG=panicnil=1`); `r = some v` is any non-nil value. -/
inductive TickOutcome (ρ : Type) where
  | returned (status : Status) (err : error)
  | panicked (r : Option ρ)

/-- The type `Tick`, `func(children []Node) (Status, error)`, as a closure over
a world `σ`; `ν` is the type of the children it is handed. -/
abbrev Tick (ν σ ρ : Type) := List ν → σ → TickOutcome ρ × σ

/-! ## `Async` (async.go) -/

/-- The anonymous `struct { Status Status; Error error }` carried by `done`. -/
structure AsyncResult where
  Status : Status
  Error : error
deriving DecidableEq, Repr

/-- `recover()` in the deferred function of the goroutine (line 56): nil when
the tick returned, and the value of the panic when it panicked, which is nil
again for a panic with the nil interface. -/
def recover {ρ : Type} : TickOutcome ρ → Option ρ
  | .returned _ _ => none
  | .panicked r => r

/-- `fmt.Errorf("behaviortree.Async recovered from panic: %+v", r)`. -/
def recoveredError {ρ : Type} [GoValue ρ] (r : ρ) : GoError :=
  ⟨"behaviortree.Async recovered from panic: " ++ GoValue.plusV r⟩

/-- The goroutine of `Async` (lines 47-64) up to its send: `status` starts as
the zero value, line 63 assigns it when the tick returns, the deferred function
returns early when `recover()` is nil (lines 57-59) and overwrites `status`
otherwise (lines 60-61); the result is what the outer deferred function sends
on `done`. -/
def asyncBody {ρ : Type} [GoValue ρ] (o : TickOutcome ρ) : AsyncResult :=
  let zero : AsyncResult := ⟨⟨0⟩, none⟩
  let status : AsyncResult :=
    match o with
    | .returned s e => ⟨s, e⟩
    | .panicked _ => zero
  match recover o with
  | none => status
  | some r => { status with Status := Failure, Error := some (recoveredError r) }

/-- The closure returned by `Async`: the wrapped tick and the captured variable
`done`.  `done = none` is the nil channel (idle); `done = some buf` is a
channel made with capacity 1 whose buffer is `buf`. -/
structure Adapter (ν σ ρ : Type) where
  tick : Tick ν σ ρ
  done : Option (Option AsyncResult)

/-- `Async`: a nil tick gives nil, any other tick gives a closure with
`done = nil`. -/
def Async {ν σ ρ : Type} (tick : Option (Tick ν σ ρ)) : Option (Adapter ν σ ρ) :=
  match tick with
  | none => none
  | some t => some { tick := t, done := none }

/-- A goroutine started by the wrapper that has not yet finished its send. -/
inductive Goroutine (ν : Type) where
  /-- started with `children`; `tick(children)` has not come back yet -/
  | ticking (children : List ν)
  /-- the tick came back; the deferred `done <- status` is pending -/
  | sending (status : AsyncResult)

/-- One adapter together with the goroutines it has started and the world the
tick acts on. -/
structure Sys (ν σ ρ : Type) where
  adapter : Adapter ν σ ρ
  gos : List (Goroutine ν)
  world : σ

/-- The state right after `Async(tick)` returned the closure `a`. -/
def Sys.fresh {ν σ ρ : Type} (a : Adapter ν σ ρ) (w : σ) : Sys ν σ ρ :=
  { adapter := a, gos := [], world := w }

/-- One call of the wrapper (lines 36-78), under the mutex. -/
def Sys.call {ν σ ρ : Type} (s : Sys ν σ ρ) (children : List ν) :
    (Status × error) × Sys ν σ ρ :=
  match s.adapter.done with
  | none =>
      -- `done = make(chan ..., 1)`, `go func() ...`, `return Running, nil`
      ((Running, none),
        { s with adapter := { s.adapter with done := some none },
                 gos := s.gos ++ [Goroutine.ticking children] })
  | some (some status) =>
      -- `case status := <-done`: `done = nil`, return the pair
      ((status.Status, status.Error),
        { s with adapter := { s.adapter with done := none } })
  | some none =>
      -- `default`: nothing to receive
      ((Running, none), s)

/-- One step of goroutine number `i`: a ticking goroutine gets its tick's
outcome and becomes ready to send; a sending goroutine sends on the channel the
variable `done` holds, which succeeds only when that channel exists and its
buffer is empty (otherwise the send blocks and nothing changes). -/
def Sys.bg {ν σ ρ : Type} [GoValue ρ] (s : Sys ν σ ρ) (i : Nat) : Sys ν σ ρ :=
  match s.gos.get? i with
  | none => s
  | some (.ticking children) =>
      let r := s.adapter.tick children s.world
      { s with gos := s.gos.set i (.sending (asyncBody r.1)), world := r.2 }
  | some (.sending status) =>
      match s.adapter.done with
      | some none =>
          { s with adapter := { s.adapter with done := some (some status) },
                   gos := s.gos.eraseIdx i }
      | _ => s

/-- What can happen to an adapter: a wrapper call, or a step of one of its
goroutines. -/
inductive Event (ν : Type) where
  | call (children : List ν)
  | bg (i : Nat)

/-- The state after one event. -/
def Sys.step {ν σ ρ : Type} [GoValue ρ] (s : Sys ν σ ρ) : Event ν → Sys ν σ ρ
  | .call children => (s.call children).2
  | .bg i => s.bg i

/-- The state after a sequence of events. -/
def Sys.run {ν σ ρ : Type} [GoValue ρ] (s : Sys ν σ ρ) (evs : List (Event ν)) : Sys ν σ ρ :=
  evs.foldl Sys.step s

/-- Background executions that are outstanding: started, and their result not
yet taken by a call (still running, still sending, or sitting in the buffer). -/
def Sys.outstanding {ν σ ρ : Type} (s : Sys ν σ ρ) : Nat :=
  s.gos.length +
    (match s.adapter.done with
     | some (some _) => 1
     | _ => 0)

/-! ## The ticker (`NewTicker`, `NewTickerStopOnFailure`)

Of the ticker only `ticker_test.go` is embedded; the constructors and the run
loop are described by the specification and pinned down by the tests. -/

/-- Modelled from the spec: the type `Node`, declared outside `async.go`:
"a callable taking no arguments and producing (Evaluation function, ordered
sequence of child Targets)", `func() (Tick, []Node)` in the tests.  It is
re-invoked every period and may answer differently each time. -/
abbrev Node (ν σ ρ : Type) := σ → (Option (Tick ν σ ρ) × List ν) × σ

/-- Modelled from the spec: `context.Context` as the ticker sees it.  Only its
presence is checked at construction; its cancellation or expiry reaches the run
loop as an event carrying `ctx.Err()`. -/
structure Context where
  id : Nat
deriving DecidableEq, Repr

/-- Modelled from the spec: the scheduler state behind a `Ticker` handle
(`tickerCore` in the tests, which read its fields `ctx`, `node`, `err` and
`done`): the target, the context, the stop policy chosen at construction, the
completion signal, the captured terminal error.  `evals` counts the
invocations of the evaluation function; `crashed` records a panic of the
evaluation (with its value), which the scheduler does not intercept (the spec gives fault
containment to the Async adapter only); `world` is the state the target acts
on. -/
structure Ticker (ν σ ρ : Type) where
  ctx : Context
  duration : Int
  node : Node ν σ ρ
  stopOnFailure : Bool
  done : Bool
  err : error
  evals : Nat
  crashed : Option (Option ρ)
  world : σ

/-- Modelled from the spec: `NewTicker`, whose source file is not embedded.  The
three preconditions are checked in the order the spec lists them (context,
period, target) and a violation is a panic, here `Except.error` with the
message the tests `TestNewTicker_panic1..3` expect; otherwise the ticker is
created running.  `w` is the world at construction time. -/
def NewTicker {ν σ ρ : Type} (ctx : Option Context) (duration : Int)
    (node : Option (Node ν σ ρ)) (w : σ) : Except String (Ticker ν σ ρ) :=
  match ctx with
  | none => .error "behaviortree.NewTicker nil context"
  | some c =>
      if duration ≤ 0 then .error "behaviortree.NewTicker duration <= 0"
      else
        match node with
        | none => .error "behaviortree.NewTicker nil node"
        | some n =>
            .ok { ctx := c, duration := duration, node := n, stopOnFailure := false,
                  done := false, err := none, evals := 0, crashed := none, world := w }

/-- Modelled from the spec: `NewTickerStopOnFailure`, whose source file is
not embedded.  A nil node is refused first, with its own message
(`TestNewTickerStopOnFailure_nilNode` passes a nil context and a zero period as
well); the other preconditions are those of `NewTicker`; the ticker differs
from `NewTicker`'s only in its stop policy. -/
def NewTickerStopOnFailure {ν σ ρ : Type} (ctx : Option Context) (duration : Int)
    (node : Option (Node ν σ ρ)) (w : σ) : Except String (Ticker ν σ ρ) :=
  match node with
  | none => .error "behaviortree.NewTickerStopOnFailure nil node"
  | some n =>
      match NewTicker ctx duration (some n) w with
      | .error e => .error e
      | .ok t => .ok { t with stopOnFailure := true }

/-- Modelled from the spec: steps 1-3 of the run loop for one period:
re-resolve the target, and invoke the resolved evaluation function with the
resolved children; `none` when the target resolves to no evaluation
function. -/
def Node.eval {ν σ ρ : Type} (node : Node ν σ ρ) (w : σ) : Option (TickOutcome ρ) × σ :=
  let r := node w
  match r.1.1 with
  | none => (none, r.2)
  | some f =>
      let o := f r.1.2 r.2
      (some o.1, o.2)

/-- What the run loop of a ticker can observe. -/
inductive TickerEvent where
  /-- the periodic timer fired -/
  | timer
  /-- the stop request made by `Stop()` -/
  | stop
  /-- the context was cancelled or expired; `e` is `ctx.Err()` -/
  | ctxDone (e : GoError)
deriving DecidableEq, Repr

/-- The terminal error of a target that resolves to no evaluation function
(`TestNewTickerStopOnFailure_nilTick`). -/
def nilTickError : GoError := ⟨"behaviortree.Node cannot tick a node with a nil tick"⟩

/-- Modelled from the spec: one iteration of the run loop, whose source file is
not embedded.  A stopped (or crashed) ticker ignores every event.  A stop
request stops with no error, a context event stops with the context's error.
On a timer tick the target is resolved and evaluated: no evaluation function
is a terminal error; a non-nil returned error is terminal and is captured
under either policy (`TestNewTicker_runError` waits for `Done()` of a
`NewTicker` ticker whose evaluation returns an error and compares `Err()` with
it); a `Failure` without error is terminal only under the stop-on-failure
policy and leaves the captured error nil (`TestNewTickerStopOnFailure_success`);
every other outcome continues. -/
def Ticker.step {ν σ ρ : Type} (t : Ticker ν σ ρ) (ev : TickerEvent) : Ticker ν σ ρ :=
  if t.done then t
  else if t.crashed.isSome then t
  else
    match ev with
    | .stop => { t with done := true }
    | .ctxDone e => { t with done := true, err := some e }
    | .timer =>
        match Node.eval t.node t.world with
        | (none, w) => { t with done := true, err := some nilTickError, world := w }
        | (some (.panicked r), w) => { t with evals := t.evals + 1, crashed := some r, world := w }
        | (some (.returned status err), w) =>
            if err.isSome then
              { t with done := true, err := err, evals := t.evals + 1, world := w }
            else if t.stopOnFailure && decide (status = Failure) then
              { t with done := true, evals := t.evals + 1, world := w }
            else
              { t with evals := t.evals + 1, world := w }

/-- The ticker after a sequence of loop events. -/
def Ticker.run {ν σ ρ : Type} (t : Ticker ν σ ρ) (evs : List TickerEvent) : Ticker ν σ ρ :=
  evs.foldl Ticker.step t

/-- The world before period `k + 1` when the periods `1..k` were all evaluated. -/
def worldAfter {ν σ ρ : Type} (node : Node ν σ ρ) (w : σ) : Nat → σ
  | 0 => w
  | k + 1 => (Node.eval node (worldAfter node w k)).2

/-- What the evaluation of period `k + 1` yields when the periods `1..k` were
all evaluated (`none`: the target resolved to no evaluation function). -/
def outcomeAt {ν σ ρ : Type} (node : Node ν σ ρ) (w : σ) (k : Nat) : Option (TickOutcome ρ) :=
  (Node.eval node (worldAfter node w k)).1

/-! ### The targets of `ticker_test.go` -/

instance : GoValue String where
  plusV s := s

/-- The target of `TestNewTicker_runError`: every evaluation returns
`0, expected` with `expected = errors.New("some_error")`, no children. -/
def runErrorNode : Node Unit Unit String :=
  fun w => ((some (fun _ w1 => (.returned ⟨0⟩ (some ⟨"some_error"⟩), w1)), []), w)

/-- The target of `TestNewTickerStopOnFailure_success`: five children, and an
evaluation that increments `count` and returns `Failure, nil` when it reaches 5
and `Success, nil` otherwise.  The world is `count`. -/
def stopOnFailureSuccessNode : Node (Option Unit) Nat String :=
  fun w =>
    ((some (fun _ count =>
        let count1 := count + 1
        if count1 = 5 then (.returned Failure none, count1)
        else (.returned Success none, count1)),
      List.replicate 5 none), w)

/-- The target of `TestNewTickerStopOnFailure_error`: every evaluation returns
`Failure, errors.New("some_error")`. -/
def stopOnFailureErrorNode : Node (Option Unit) Unit String :=
  fun w => ((some (fun _ w1 => (.returned Failure (some ⟨"some_error"⟩), w1)),
    List.replicate 5 none), w)

/-- The target of `TestNewTicker_runCancel`, without its sleep: every
evaluation returns `Success, nil`. -/
def runCancelNode : Node Unit Unit String :=
  fun w => ((some (fun _ w1 => (.returned Success none, w1)), []), w)

/-! ### Observing a run of an adapter -/

/-- The pair sitting in the result channel, if any. -/
def Sys.buffered {ν σ ρ : Type} (s : Sys ν σ ρ) : List (Status × error) :=
  match s.adapter.done with
  | some (some r) => [(r.Status, r.Error)]
  | _ => []

/-- The pairs that background executions put into the result channel along a
run, in order: an event produces `r` when it turns an empty channel into one
holding `r`. -/
def Sys.produced {ν σ ρ : Type} [GoValue ρ] (s : Sys ν σ ρ) : List (Event ν) → List (Status × error)
  | [] => []
  | ev :: evs =>
      (match s.adapter.done, (s.step ev).adapter.done with
       | some none, some (some r) => [(r.Status, r.Error)]
       | _, _ => [])
      ++ Sys.produced (s.step ev) evs

/-- The pairs returned along a run by the calls that found a result in the
channel, in order. -/
def Sys.delivered {ν σ ρ : Type} [GoValue ρ] (s : Sys ν σ ρ) : List (Event ν) → List (Status × error)
  | [] => []
  | .call cs :: evs =>
      (match s.adapter.done with
       | some (some _) => [(s.call cs).1]
       | _ => [])
      ++ Sys.delivered (s.call cs).2 evs
  | .bg i :: evs => Sys.delivered (s.bg i) evs

/-- The shape of every state an adapter can reach: idle with no goroutine, or
in-flight with an empty channel and exactly one goroutine, or in-flight with a
result in the channel and no goroutine left. -/
def Sys.WellFormed {ν σ ρ : Type} (s : Sys ν σ ρ) : Prop :=
  match s.adapter.done with
  | none => s.gos = []
  | some none => s.gos.length = 1
  | some (some _) => s.gos = []

/-- A tick that counts its invocations in the world and returns `Success, nil`. -/
def countingTick : Tick Unit Nat String :=
  fun _ n => (.returned Success none, n + 1)

/-- A tick that panics with the string `boom`. -/
def panickingTick : Tick Unit Nat String :=
  fun _ n => (.panicked (some "boom"), n + 1)

/-- A tick that does `panic(nil)`. -/
def nilPanickingTick : Tick Unit Nat String :=
  fun _ n => (.panicked none, n + 1)

/-! ## Theorems about `Async` -/

section AsyncTheorems

variable {ν σ ρ : Type}

theorem Async_some (t : Tick ν σ ρ) : Async (some t) = some { tick := t, done := none } := rfl

/-- C5: `Async(nil)` is nil, so no adapter state exists for it; and for every
non-nil tick `Async(tick)` is non-nil: it is a closure over that tick, created
idle (`done = nil`). -/
theorem Async_nil_passthrough :
    Async (none : Option (Tick ν σ ρ)) = none ∧
    (∀ tick : Option (Tick ν σ ρ), Async tick = none ↔ tick = none) ∧
    (∀ t : Tick ν σ ρ, ∃ a, Async (some t) = some a ∧ a.tick = t ∧ a.done = none) := by
  refine ⟨rfl, ?_, ?_⟩
  · intro tick
    cases tick with
    | none => simp [Async]
    | some t => simp [Async]
  · intro t
    exact ⟨_, rfl, rfl, rfl⟩

/-- C2: a call made while the adapter is idle returns `(Running, nil)` whatever
the tick is, leaves the world untouched (the tick is not run by the call), marks
the adapter in-flight with an empty result channel, and starts exactly one
goroutine, which holds the children of this call: when that goroutine runs, it
invokes the original tick with these children.  A freshly created adapter is
idle, and so is one that has just delivered a result. -/
theorem call_idle_starts [GoValue ρ] (s : Sys ν σ ρ) (cs : List ν) (h : s.adapter.done = none) :
    (s.call cs).1 = (Running, none) ∧
    (s.call cs).2.adapter.done = some none ∧
    (s.call cs).2.adapter.tick = s.adapter.tick ∧
    (s.call cs).2.world = s.world ∧
    (s.call cs).2.gos = s.gos ++ [Goroutine.ticking cs] ∧
    ((s.call cs).2.bg s.gos.length).gos
      = s.gos ++ [Goroutine.sending (asyncBody (s.adapter.tick cs s.world).1)] ∧
    ((s.call cs).2.bg s.gos.length).world = (s.adapter.tick cs s.world).2 ∧
    (∀ (t : Tick ν σ ρ) (a : Adapter ν σ ρ) (w : σ),
        Async (some t) = some a → (Sys.fresh a w).adapter.done = none) ∧
    (∀ (s0 : Sys ν σ ρ) (r : AsyncResult) (cs0 : List ν),
        s0.adapter.done = some (some r) → (s0.call cs0).2.adapter.done = none) := by
  refine ⟨?_, ?_, ?_, ?_, ?_, ?_, ?_, ?_, ?_⟩
  · simp [Sys.call, h]
  · simp [Sys.call, h]
  · simp [Sys.call, h]
  · simp [Sys.call, h]
  · simp [Sys.call, h]
  · simp [Sys.call, h, Sys.bg]
  · simp [Sys.call, h, Sys.bg]
  · intro t a w ha
    rw [Async_some] at ha
    cases ha
    rfl
  · intro s0 r cs0 h0
    simp [Sys.call, h0]

/-- C6: a call made while the adapter is in-flight and the channel is still
empty returns `(Running, nil)` and changes nothing at all: the adapter stays
in-flight, the goroutines (with the children they were started with) and the
world are the same, whatever children this call was given. -/
theorem call_pending_noop (s : Sys ν σ ρ) (cs : List ν) (h : s.adapter.done = some none) :
    (s.call cs).1 = (Running, none) ∧
    (s.call cs).2 = s ∧
    (s.call cs).2.adapter.done = some none ∧
    (s.call cs).2.gos = s.gos ∧
    (s.call cs).2.world = s.world ∧
    (∀ cs2 : List ν, s.call cs2 = s.call cs) := by
  have h2 : ∀ c : List ν, s.call c = ((Running, none), s) := by
    intro c
    simp [Sys.call, h]
  refine ⟨?_, ?_, ?_, ?_, ?_, ?_⟩
  · rw [h2]
  · rw [h2]
  · rw [h2]; exact h
  · rw [h2]
  · rw [h2]
  · intro cs2
    rw [h2, h2]

/-! ### The reachable states -/

theorem get?_lt_length {α : Type} {l : List α} {i : Nat} {x : α} (h : l.get? i = some x) :
    i < l.length := by
  rcases List.get?_eq_some.mp h with ⟨hlt, _⟩
  exact hlt

theorem wellFormed_fresh (t : Tick ν σ ρ) (w : σ) :
    (Sys.fresh { tick := t, done := none } w).WellFormed := by
  simp [Sys.WellFormed, Sys.fresh]

theorem wellFormed_call (s : Sys ν σ ρ) (cs : List ν) (h : s.WellFormed) :
    (s.call cs).2.WellFormed := by
  unfold Sys.WellFormed at h
  unfold Sys.call
  cases hd : s.adapter.done with
  | none =>
      rw [hd] at h
      simp [Sys.WellFormed, h]
  | some b =>
      cases b with
      | none =>
          rw [hd] at h
          simp [Sys.WellFormed, hd, h]
      | some r =>
          rw [hd] at h
          simp [Sys.WellFormed, h]

theorem wellFormed_bg [GoValue ρ] (s : Sys ν σ ρ) (i : Nat) (h : s.WellFormed) :
    (s.bg i).WellFormed := by
  unfold Sys.bg
  cases hg : s.gos.get? i with
  | none => simpa using h
  | some g =>
      have hlt := get?_lt_length hg
      cases g with
      | ticking cs =>
          unfold Sys.WellFormed at h ⊢
          cases hd : s.adapter.done with
          | none =>
              rw [hd] at h
              rw [h] at hlt
              simp at hlt
          | some b =>
              cases b with
              | none =>
                  rw [hd] at h
                  simp [hd, h]
              | some r =>
                  rw [hd] at h
                  rw [h] at hlt
                  simp at hlt
      | sending st =>
          unfold Sys.WellFormed at h ⊢
          cases hd : s.adapter.done with
          | none =>
              rw [hd] at h
              simp [hd, h]
          | some b =>
              cases b with
              | none =>
                  rw [hd] at h
                  simp only []
                  apply List.eq_nil_of_length_eq_zero
                  rw [List.length_eraseIdx, if_pos hlt, h]
              | some r =>
                  rw [hd] at h
                  simp [hd, h]

theorem wellFormed_step [GoValue ρ] (s : Sys ν σ ρ) (ev : Event ν) (h : s.WellFormed) :
    (s.step ev).WellFormed := by
  cases ev with
  | call cs => exact wellFormed_call s cs h
  | bg i => exact wellFormed_bg s i h

theorem wellFormed_run [GoValue ρ] (evs : List (Event ν)) :
    ∀ s : Sys ν σ ρ, s.WellFormed → (s.run evs).WellFormed := by
  induction evs with
  | nil => intro s h; exact h
  | cons ev evs ih =>
      intro s h
      exact ih (s.step ev) (wellFormed_step s ev h)

theorem outstanding_of_wellFormed (s : Sys ν σ ρ) (h : s.WellFormed) :
    s.outstanding = if s.adapter.done = none then 0 else 1 := by
  unfold Sys.WellFormed at h
  unfold Sys.outstanding
  cases hd : s.adapter.done with
  | none =>
      rw [hd] at h
      simp [h]
  | some b =>
      cases b with
      | none =>
          rw [hd] at h
          simp [h]
      | some r =>
          rw [hd] at h
          simp [h]

theorem bg_none [GoValue ρ] (s : Sys ν σ ρ) (i : Nat) (hg : s.gos.get? i = none) :
    s.bg i = s := by
  unfold Sys.bg
  rw [hg]

theorem bg_ticking [GoValue ρ] (s : Sys ν σ ρ) (i : Nat) (cs : List ν)
    (hg : s.gos.get? i = some (Goroutine.ticking cs)) :
    s.bg i = { s with gos := s.gos.set i (Goroutine.sending (asyncBody (s.adapter.tick cs s.world).1)),
                      world := (s.adapter.tick cs s.world).2 } := by
  unfold Sys.bg
  rw [hg]

theorem bg_sending [GoValue ρ] (s : Sys ν σ ρ) (i : Nat) (st : AsyncResult)
    (hg : s.gos.get? i = some (Goroutine.sending st)) (hd : s.adapter.done = some none) :
    s.bg i = { s with adapter := { s.adapter with done := some (some st) },
                      gos := s.gos.eraseIdx i } := by
  unfold Sys.bg
  rw [hg]
  simp only [hd]

theorem bg_blocked [GoValue ρ] (s : Sys ν σ ρ) (i : Nat) (st : AsyncResult)
    (hg : s.gos.get? i = some (Goroutine.sending st)) (hd : s.adapter.done ≠ some none) :
    s.bg i = s := by
  unfold Sys.bg
  rw [hg]
  cases hd2 : s.adapter.done with
  | none => rfl
  | some b =>
      cases b with
      | none => exact absurd hd2 hd
      | some r => rfl

theorem run_cons [GoValue ρ] (s : Sys ν σ ρ) (ev : Event ν) (evs : List (Event ν)) :
    s.run (ev :: evs) = (s.step ev).run evs := rfl

theorem run_append [GoValue ρ] (s : Sys ν σ ρ) (evs1 evs2 : List (Event ν)) :
    s.run (evs1 ++ evs2) = (s.run evs1).run evs2 := by
  simp [Sys.run, List.foldl_append]

theorem run_polls [GoValue ρ] (polls : List (List ν)) (s : Sys ν σ ρ)
    (h : s.adapter.done = some none) : s.run (polls.map Event.call) = s := by
  induction polls with
  | nil => rfl
  | cons c cs ih =>
      rw [List.map_cons, run_cons]
      have hc : s.step (Event.call c) = s := by
        simp [Sys.step, Sys.call, h]
      rw [hc]
      exact ih

theorem step_gos_length_le [GoValue ρ] (s : Sys ν σ ρ) (ev : Event ν)
    (h : s.gos.length < (s.step ev).gos.length) :
    ∃ cs, ev = Event.call cs ∧ s.adapter.done = none := by
  cases ev with
  | call cs =>
      refine ⟨cs, rfl, ?_⟩
      cases hd : s.adapter.done with
      | none => rfl
      | some b =>
          exfalso
          cases b with
          | none => simp [Sys.step, Sys.call, hd] at h
          | some r => simp [Sys.step, Sys.call, hd] at h
  | bg i =>
      exfalso
      simp only [Sys.step] at h
      cases hg : s.gos.get? i with
      | none =>
          rw [bg_none s i hg] at h
          omega
      | some g =>
          cases g with
          | ticking cs =>
              rw [bg_ticking s i cs hg] at h
              simp at h
          | sending st =>
              by_cases hd : s.adapter.done = some none
              · rw [bg_sending s i st hg hd] at h
                simp only [] at h
                rw [List.length_eraseIdx] at h
                split at h <;> omega
              · rw [bg_blocked s i st hg hd] at h
                omega

theorem step_to_idle [GoValue ρ] (s : Sys ν σ ρ) (ev : Event ν)
    (h1 : s.adapter.done ≠ none) (h2 : (s.step ev).adapter.done = none) :
    ∃ cs r, ev = Event.call cs ∧ s.adapter.done = some (some r) ∧
      (s.call cs).1 = (r.Status, r.Error) := by
  cases ev with
  | call cs =>
      cases hd : s.adapter.done with
      | none => exact absurd hd h1
      | some b =>
          cases b with
          | none => simp [Sys.step, Sys.call, hd] at h2
          | some r =>
              refine ⟨cs, r, rfl, rfl, ?_⟩
              simp [Sys.call, hd]
  | bg i =>
      exfalso
      simp only [Sys.step] at h2
      cases hg : s.gos.get? i with
      | none =>
          rw [bg_none s i hg] at h2
          exact h1 h2
      | some g =>
          cases g with
          | ticking cs =>
              rw [bg_ticking s i cs hg] at h2
              exact h1 h2
          | sending st =>
              by_cases hd : s.adapter.done = some none
              · rw [bg_sending s i st hg hd] at h2
                simp at h2
              · rw [bg_blocked s i st hg hd] at h2
                exact h1 h2

/-- C4: in every state reachable from a fresh `Async(tick)` adapter by any
interleaving of wrapper calls and goroutine steps, at most one background
execution is outstanding (none when the adapter is idle, exactly one when it is
in-flight); an event starts a goroutine only if it is a call that finds the
adapter idle; and an in-flight adapter becomes idle only by a call that takes
the result out of the channel and returns it. -/
theorem at_most_one_outstanding [GoValue ρ] (t : Tick ν σ ρ) (a : Adapter ν σ ρ) (w : σ)
    (evs : List (Event ν)) (ha : Async (some t) = some a) :
    ((Sys.fresh a w).run evs).outstanding ≤ 1 ∧
    (((Sys.fresh a w).run evs).adapter.done = none →
        ((Sys.fresh a w).run evs).outstanding = 0) ∧
    (((Sys.fresh a w).run evs).adapter.done ≠ none →
        ((Sys.fresh a w).run evs).outstanding = 1) ∧
    (∀ ev : Event ν,
        ((Sys.fresh a w).run evs).gos.length < (((Sys.fresh a w).run evs).step ev).gos.length →
        ∃ cs, ev = Event.call cs ∧ ((Sys.fresh a w).run evs).adapter.done = none) ∧
    (∀ ev : Event ν,
        ((Sys.fresh a w).run evs).adapter.done ≠ none →
        (((Sys.fresh a w).run evs).step ev).adapter.done = none →
        ∃ cs r, ev = Event.call cs ∧
          ((Sys.fresh a w).run evs).adapter.done = some (some r) ∧
          (((Sys.fresh a w).run evs).call cs).1 = (r.Status, r.Error)) := by
  rw [Async_some] at ha
  cases ha
  have hwf := wellFormed_run evs _ (wellFormed_fresh t w)
  have hout := outstanding_of_wellFormed _ hwf
  refine ⟨?_, ?_, ?_, ?_, ?_⟩
  · rw [hout]
    split <;> omega
  · intro hd
    rw [hout, if_pos hd]
  · intro hd
    rw [hout, if_neg hd]
  · intro ev h
    exact step_gos_length_le _ ev h
  · intro ev h1 h2
    exact step_to_idle _ ev h1 h2

/-- The witness of C4: a run in which the tick is started, finishes, is polled,
delivered and started again. -/
theorem at_most_one_outstanding_witness :
    Async (some countingTick) = some { tick := countingTick, done := none } ∧
    ((Sys.fresh { tick := countingTick, done := none } 0).run
        [Event.call [()], Event.bg 0, Event.call [], Event.bg 0, Event.call [],
         Event.call [()]]).outstanding ≤ 1 :=
  ⟨rfl, (at_most_one_outstanding countingTick _ 0 _ rfl).1⟩

theorem produced_cons [GoValue ρ] (s : Sys ν σ ρ) (ev : Event ν) (evs : List (Event ν)) :
    s.produced (ev :: evs) =
      (match s.adapter.done, (s.step ev).adapter.done with
       | some none, some (some r) => [(r.Status, r.Error)]
       | _, _ => [])
      ++ Sys.produced (s.step ev) evs := rfl

theorem exactly_once_step [GoValue ρ] (s : Sys ν σ ρ) (ev : Event ν) (evs : List (Event ν)) :
    s.buffered ++ s.produced (ev :: evs)
      = s.delivered [ev] ++ ((s.step ev).buffered ++ (s.step ev).produced evs) ∧
    s.delivered (ev :: evs) = s.delivered [ev] ++ (s.step ev).delivered evs := by
  rw [produced_cons]
  cases ev with
  | call cs =>
      cases hd : s.adapter.done with
      | none => simp [Sys.buffered, Sys.delivered, Sys.step, Sys.call, hd]
      | some b =>
          cases b with
          | none => simp [Sys.buffered, Sys.delivered, Sys.step, Sys.call, hd]
          | some r => simp [Sys.buffered, Sys.delivered, Sys.step, Sys.call, hd]
  | bg i =>
      simp only [Sys.step, Sys.delivered, List.nil_append, and_true]
      cases hg : s.gos.get? i with
      | none => rw [bg_none s i hg]; cases hd : s.adapter.done with
          | none => simp [Sys.buffered, hd]
          | some b =>
              cases b with
              | none => simp [Sys.buffered, hd]
              | some r => simp [Sys.buffered, hd]
      | some g =>
          cases g with
          | ticking cs =>
              rw [bg_ticking s i cs hg]
              cases hd : s.adapter.done with
              | none => simp [Sys.buffered, hd]
              | some b =>
                  cases b with
                  | none => simp [Sys.buffered, hd]
                  | some r => simp [Sys.buffered, hd]
          | sending st =>
              by_cases hd : s.adapter.done = some none
              · rw [bg_sending s i st hg hd]
                simp [Sys.buffered, hd]
              · rw [bg_blocked s i st hg hd]
                cases hd2 : s.adapter.done with
                | none => simp [Sys.buffered, hd2]
                | some b =>
                    cases b with
                    | none => exact absurd hd2 hd
                    | some r => simp [Sys.buffered, hd2]

theorem exactly_once_run [GoValue ρ] (evs : List (Event ν)) :
    ∀ s : Sys ν σ ρ,
      s.buffered ++ s.produced evs = s.delivered evs ++ (s.run evs).buffered := by
  induction evs with
  | nil =>
      intro s
      simp [Sys.produced, Sys.delivered, Sys.run]
  | cons ev evs ih =>
      intro s
      rcases exactly_once_step s ev evs with ⟨h1, h2⟩
      rw [h1, h2, ih (s.step ev), run_cons, List.append_assoc]

theorem sent_by_goroutine [GoValue ρ] (s : Sys ν σ ρ) (ev : Event ν) (r : AsyncResult)
    (h1 : s.adapter.done = some none) (h2 : (s.step ev).adapter.done = some (some r)) :
    ∃ i, ev = Event.bg i ∧ s.gos.get? i = some (Goroutine.sending r) := by
  cases ev with
  | call cs => simp [Sys.step, Sys.call, h1] at h2
  | bg i =>
      refine ⟨i, rfl, ?_⟩
      simp only [Sys.step] at h2
      cases hg : s.gos.get? i with
      | none =>
          rw [bg_none s i hg, h1] at h2
          cases h2
      | some g =>
          cases g with
          | ticking cs =>
              rw [bg_ticking s i cs hg] at h2
              simp only [] at h2
              rw [h1] at h2
              cases h2
          | sending st =>
              rw [bg_sending s i st hg h1] at h2
              simp only [Option.some.injEq] at h2
              rw [h2]

/-- C1: a call that finds a pair in the result channel returns exactly that
pair, whatever its status is, and puts the adapter back to idle without
touching goroutines or world; the very next call returns `(Running, nil)` and
starts a new goroutine.  A pair gets into the channel only by the send of a
goroutine, and over every run the pairs returned by delivering calls are, in
order, exactly the pairs that were put into the channel, each one once, apart
from the one still sitting in the channel at the end. -/
theorem call_delivers_once [GoValue ρ] (s : Sys ν σ ρ) (r : AsyncResult) (cs cs2 : List ν)
    (h : s.adapter.done = some (some r)) :
    (s.call cs).1 = (r.Status, r.Error) ∧
    (s.call cs).2.adapter.done = none ∧
    (s.call cs).2.gos = s.gos ∧
    (s.call cs).2.world = s.world ∧
    ((s.call cs).2.call cs2).1 = (Running, none) ∧
    ((s.call cs).2.call cs2).2.adapter.done = some none ∧
    ((s.call cs).2.call cs2).2.gos = s.gos ++ [Goroutine.ticking cs2] ∧
    (∀ (s0 : Sys ν σ ρ) (ev : Event ν) (r0 : AsyncResult),
        s0.adapter.done = some none → (s0.step ev).adapter.done = some (some r0) →
        ∃ i, ev = Event.bg i ∧ s0.gos.get? i = some (Goroutine.sending r0)) ∧
    (∀ (s0 : Sys ν σ ρ) (evs : List (Event ν)),
        s0.buffered ++ s0.produced evs = s0.delivered evs ++ (s0.run evs).buffered) := by
  refine ⟨?_, ?_, ?_, ?_, ?_, ?_, ?_, ?_, ?_⟩
  · simp [Sys.call, h]
  · simp [Sys.call, h]
  · simp [Sys.call, h]
  · simp [Sys.call, h]
  · simp [Sys.call, h]
  · simp [Sys.call, h]
  · simp [Sys.call, h]
  · intro s0 ev r0 h1 h2
    exact sent_by_goroutine s0 ev r0 h1 h2
  · intro s0 evs
    exact exactly_once_run evs s0

/-- The witness of C1: the channel holds `(Running, nil)`, the pair of a tick
that itself returned `Running`. -/
theorem call_delivers_once_witness :
    ((({ adapter := { tick := countingTick, done := some (some ⟨Running, none⟩) },
         gos := [], world := 1 } : Sys Unit Nat String).call [()]).1 = (Running, none)) ∧
    ((({ adapter := { tick := countingTick, done := some (some ⟨Running, none⟩) },
         gos := [], world := 1 } : Sys Unit Nat String).call [()]).2.adapter.done = none) :=
  ⟨(call_delivers_once _ ⟨Running, none⟩ [()] [] rfl).1,
   (call_delivers_once _ ⟨Running, none⟩ [()] [] rfl).2.1⟩

theorem asyncBody_panicked [GoValue ρ] (v : ρ) :
    asyncBody (TickOutcome.panicked (some v)) = ⟨Failure, some (recoveredError v)⟩ := rfl

theorem asyncBody_panicked_nil [GoValue ρ] :
    asyncBody (TickOutcome.panicked (none : Option ρ)) = ⟨⟨0⟩, none⟩ := rfl

theorem asyncBody_returned [GoValue ρ] (st : Status) (e : error) :
    asyncBody (TickOutcome.returned st e : TickOutcome ρ) = ⟨st, e⟩ := rfl

theorem run_round [GoValue ρ] (t : Tick ν σ ρ) (w : σ) (cs : List ν)
    (polls1 polls2 : List (List ν)) :
    (Sys.fresh { tick := t, done := none } w).run
        (Event.call cs :: (polls1.map Event.call ++
          Event.bg 0 :: (polls2.map Event.call ++ [Event.bg 0])))
      = { adapter := { tick := t, done := some (some (asyncBody (t cs w).1)) },
          gos := [], world := (t cs w).2 } := by
  rw [run_cons, run_append, run_polls polls1 _ (by simp [Sys.step, Sys.call, Sys.fresh]),
    run_cons, run_append,
    run_polls polls2 _ (by simp [Sys.step, Sys.call, Sys.fresh, Sys.bg])]
  simp [Sys.run, Sys.step, Sys.call, Sys.fresh, Sys.bg]

/-- C3, as stated, fails: a tick that does `panic(nil)`, with `recover()`
reporting nil for it, is started, runs and sends; the call that observes
completion returns the zero status `0` with a nil error, not `Failure` with an
error. -/
theorem panic_nil_delivers_zero_status :
    Async (some nilPanickingTick) = some { tick := nilPanickingTick, done := none } ∧
    nilPanickingTick [()] 0 = (TickOutcome.panicked none, 1) ∧
    (((Sys.fresh { tick := nilPanickingTick, done := none } 0).run
        [Event.call [()], Event.bg 0, Event.bg 0]).call []).1 = (⟨0⟩, none) ∧
    (((Sys.fresh { tick := nilPanickingTick, done := none } 0).run
        [Event.call [()], Event.bg 0, Event.bg 0]).call []).1.1 ≠ Failure ∧
    (((Sys.fresh { tick := nilPanickingTick, done := none } 0).run
        [Event.call [()], Event.bg 0, Event.bg 0]).call []).1.2 = none :=
  ⟨rfl, rfl, rfl, by decide, rfl⟩

/-- C3, amended: when the tick panics in the goroutine started by a call, the
panic is recovered there whatever its value `r` is (nil included): the
goroutine still sends a result, and after its two steps (with any number of
polls in between, each of which returns `(Running, nil)`) the channel holds
that result, no goroutine is left, and the call that observes completion
returns it and leaves the adapter idle.  When `r` is a non-nil value `v`, that
result is `Failure` with a non-nil error whose message is
"behaviortree.Async recovered from panic: " followed by `v` rendered with
`%+v`. -/
theorem panic_contained [GoValue ρ] (t : Tick ν σ ρ) (a : Adapter ν σ ρ) (w w1 : σ)
    (cs cs2 : List ν) (polls1 polls2 : List (List ν)) (r : Option ρ)
    (ha : Async (some t) = some a) (ht : t cs w = (TickOutcome.panicked r, w1)) :
    (∃ res : AsyncResult,
      ((Sys.fresh a w).run
          (Event.call cs :: (polls1.map Event.call ++
            Event.bg 0 :: (polls2.map Event.call ++ [Event.bg 0])))).adapter.done
        = some (some res) ∧
      ((Sys.fresh a w).run
          (Event.call cs :: (polls1.map Event.call ++
            Event.bg 0 :: (polls2.map Event.call ++ [Event.bg 0])))).gos = [] ∧
      (((Sys.fresh a w).run
          (Event.call cs :: (polls1.map Event.call ++
            Event.bg 0 :: (polls2.map Event.call ++ [Event.bg 0])))).call cs2).1
        = (res.Status, res.Error) ∧
      (((Sys.fresh a w).run
          (Event.call cs :: (polls1.map Event.call ++
            Event.bg 0 :: (polls2.map Event.call ++ [Event.bg 0])))).call cs2).2.adapter.done
        = none) ∧
    (∀ v : ρ, r = some v →
      ((Sys.fresh a w).run
          (Event.call cs :: (polls1.map Event.call ++
            Event.bg 0 :: (polls2.map Event.call ++ [Event.bg 0])))).adapter.done
        = some (some ⟨Failure,
            some ⟨"behaviortree.Async recovered from panic: " ++ GoValue.plusV v⟩⟩) ∧
      (((Sys.fresh a w).run
          (Event.call cs :: (polls1.map Event.call ++
            Event.bg 0 :: (polls2.map Event.call ++ [Event.bg 0])))).call cs2).1
        = (Failure, some ⟨"behaviortree.Async recovered from panic: " ++ GoValue.plusV v⟩) ∧
      ((Sys.fresh a w).run
          (Event.call cs :: (polls1.map Event.call ++ [Event.bg 0]))).gos
        = [Goroutine.sending ⟨Failure,
            some ⟨"behaviortree.Async recovered from panic: " ++ GoValue.plusV v⟩⟩]) := by
  rw [Async_some] at ha
  cases ha
  rw [run_round, ht]
  refine ⟨⟨asyncBody (TickOutcome.panicked r), rfl, rfl, ?_, ?_⟩, ?_⟩
  · simp [Sys.call]
  · simp [Sys.call]
  · intro v hv
    subst hv
    refine ⟨?_, ?_, ?_⟩
    · simp [asyncBody_panicked, recoveredError]
    · simp [Sys.call, asyncBody_panicked, recoveredError]
    · rw [run_cons, run_append, run_polls polls1 _ (by simp [Sys.step, Sys.call, Sys.fresh])]
      simp [Sys.run, Sys.step, Sys.call, Sys.fresh, Sys.bg, ht, asyncBody_panicked,
        recoveredError]

/-- The witness of C3, amended: a tick that panics with the string `boom`,
polled twice while it runs and once before its send. -/
theorem panic_contained_witness :
    Async (some panickingTick) = some { tick := panickingTick, done := none } ∧
    panickingTick [()] 0 = (TickOutcome.panicked (some "boom"), 1) ∧
    (((Sys.fresh { tick := panickingTick, done := none } 0).run
        (Event.call [()] :: ([[], []].map Event.call ++
          Event.bg 0 :: ([[]].map Event.call ++ [Event.bg 0])))).call []).1
      = (Failure, some ⟨"behaviortree.Async recovered from panic: boom"⟩) :=
  ⟨rfl, rfl,
   ((panic_contained panickingTick _ 0 1 [()] [] [[], []] [[]] (some "boom") rfl rfl).2
      "boom" rfl).2.1⟩

/-- The witness of C2: the first call to a fresh adapter. -/
theorem call_idle_starts_witness :
    (Sys.fresh { tick := countingTick, done := none } 0).adapter.done = none ∧
    ((Sys.fresh { tick := countingTick, done := none } 0).call [()]).1 = (Running, none) ∧
    ((Sys.fresh { tick := countingTick, done := none } 0).call [()]).2.gos
      = [Goroutine.ticking [()]] :=
  ⟨rfl, (call_idle_starts _ [()] rfl).1, (call_idle_starts _ [()] rfl).2.2.2.2.1⟩

/-- The witness of C6: a poll while the only goroutine is still running. -/
theorem call_pending_noop_witness :
    (({ adapter := { tick := countingTick, done := some none },
        gos := [Goroutine.ticking [()]], world := 0 } : Sys Unit Nat String).adapter.done
      = some none) ∧
    (({ adapter := { tick := countingTick, done := some none },
        gos := [Goroutine.ticking [()]], world := 0 } : Sys Unit Nat String).call []).1
      = (Running, none) :=
  ⟨rfl, (call_pending_noop _ [] rfl).1⟩

end AsyncTheorems

/-! ## Theorems about the ticker -/

section TickerTheorems

variable {ν σ ρ : Type}

theorem NewTicker_ok (c : Context) (d : Int) (n : Node ν σ ρ) (w : σ) (hd : 0 < d) :
    NewTicker (some c) d (some n) w
      = .ok { ctx := c, duration := d, node := n, stopOnFailure := false,
              done := false, err := none, evals := 0, crashed := none, world := w } := by
  have h : ¬ d ≤ 0 := not_le.mpr hd
  simp [NewTicker, h]

theorem NewTicker_ok_inv (ctx : Option Context) (d : Int) (node : Option (Node ν σ ρ)) (w : σ)
    (T : Ticker ν σ ρ) (h : NewTicker ctx d node w = .ok T) :
    ∃ c n, ctx = some c ∧ 0 < d ∧ node = some n ∧
      T = { ctx := c, duration := d, node := n, stopOnFailure := false,
            done := false, err := none, evals := 0, crashed := none, world := w } := by
  cases ctx with
  | none => simp [NewTicker] at h
  | some c =>
      by_cases hd : d ≤ 0
      · simp [NewTicker, hd] at h
      · cases node with
        | none => simp [NewTicker, hd] at h
        | some n =>
            rw [NewTicker_ok c d n w (not_le.mp hd)] at h
            cases h
            exact ⟨c, n, rfl, not_le.mp hd, rfl, rfl⟩

theorem NewTickerStopOnFailure_ok_inv (ctx : Option Context) (d : Int)
    (node : Option (Node ν σ ρ)) (w : σ)
    (T : Ticker ν σ ρ) (h : NewTickerStopOnFailure ctx d node w = .ok T) :
    ∃ c n, ctx = some c ∧ 0 < d ∧ node = some n ∧
      T = { ctx := c, duration := d, node := n, stopOnFailure := true,
            done := false, err := none, evals := 0, crashed := none, world := w } := by
  cases node with
  | none => simp [NewTickerStopOnFailure] at h
  | some n =>
      unfold NewTickerStopOnFailure at h
      simp only [] at h
      cases hN : NewTicker ctx d (some n) w with
      | error e => rw [hN] at h; cases h
      | ok t =>
          rw [hN] at h
          rcases NewTicker_ok_inv ctx d (some n) w t hN with ⟨c, n2, hc, hd, hn, ht⟩
          cases hn
          subst ht
          cases h
          exact ⟨c, n, hc, hd, rfl, rfl⟩

/-- C7: the constructors refuse every contract violation with the panic that
names it, and return no ticker: `NewTicker` with a nil context panics with
"behaviortree.NewTicker nil context"; with a context and a duration `<= 0` with
"behaviortree.NewTicker duration <= 0"; with a context, a positive duration and
a nil node with "behaviortree.NewTicker nil node"; `NewTickerStopOnFailure` with
a nil node panics with "behaviortree.NewTickerStopOnFailure nil node" for every
context and duration.  A ticker is returned only when the context and the node
are present and the duration is positive. -/
theorem constructors_refuse_violations :
    (∀ (d : Int) (node : Option (Node ν σ ρ)) (w : σ),
        NewTicker none d node w = .error "behaviortree.NewTicker nil context") ∧
    (∀ (c : Context) (d : Int) (node : Option (Node ν σ ρ)) (w : σ), d ≤ 0 →
        NewTicker (some c) d node w = .error "behaviortree.NewTicker duration <= 0") ∧
    (∀ (c : Context) (d : Int) (w : σ), 0 < d →
        NewTicker (some c) d (none : Option (Node ν σ ρ)) w
          = .error "behaviortree.NewTicker nil node") ∧
    (∀ (ctx : Option Context) (d : Int) (w : σ),
        NewTickerStopOnFailure ctx d (none : Option (Node ν σ ρ)) w
          = .error "behaviortree.NewTickerStopOnFailure nil node") ∧
    (NewTickerStopOnFailure none 0 (none : Option (Node ν σ ρ))
        = fun _ => .error "behaviortree.NewTickerStopOnFailure nil node") ∧
    (∀ (ctx : Option Context) (d : Int) (node : Option (Node ν σ ρ)) (w : σ)
        (T : Ticker ν σ ρ),
        (NewTicker ctx d node w = .ok T ∨ NewTickerStopOnFailure ctx d node w = .ok T) →
        ctx ≠ none ∧ 0 < d ∧ node ≠ none) := by
  refine ⟨?_, ?_, ?_, ?_, ?_, ?_⟩
  · intro d node w
    rfl
  · intro c d node w hd
    simp [NewTicker, hd]
  · intro c d w hd
    have h : ¬ d ≤ 0 := not_le.mpr hd
    simp [NewTicker, h]
  · intro ctx d w
    rfl
  · rfl
  · intro ctx d node w T h
    rcases h with h | h
    · rcases NewTicker_ok_inv ctx d node w T h with ⟨c, n, hc, hd, hn, _⟩
      subst hc hn
      exact ⟨by simp, hd, by simp⟩
    · rcases NewTickerStopOnFailure_ok_inv ctx d node w T h with ⟨c, n, hc, hd, hn, _⟩
      subst hc hn
      exact ⟨by simp, hd, by simp⟩

theorem ticker_run_append (T : Ticker ν σ ρ) (evs1 evs2 : List TickerEvent) :
    T.run (evs1 ++ evs2) = (T.run evs1).run evs2 := by
  simp [Ticker.run, List.foldl_append]

theorem ticker_run_single (T : Ticker ν σ ρ) (ev : TickerEvent) :
    T.run [ev] = T.step ev := rfl

theorem ticker_step_of_done (T : Ticker ν σ ρ) (ev : TickerEvent) (h : T.done = true) :
    T.step ev = T := by
  simp [Ticker.step, h]

theorem ticker_run_of_done (evs : List TickerEvent) :
    ∀ T : Ticker ν σ ρ, T.done = true → T.run evs = T := by
  induction evs with
  | nil => intro T _; rfl
  | cons ev evs ih =>
      intro T h
      show (T.step ev).run evs = T
      rw [ticker_step_of_done T ev h]
      exact ih T h

theorem eval_eq (node : Node ν σ ρ) (w : σ) (k : Nat) :
    Node.eval node (worldAfter node w k) = (outcomeAt node w k, worldAfter node w (k + 1)) := rfl

theorem ticker_step_timer (T : Ticker ν σ ρ) (st : Status) (e : error) (w1 : σ)
    (hd : T.done = false) (hc : T.crashed = none)
    (he : Node.eval T.node T.world = (some (TickOutcome.returned st e), w1)) :
    T.step TickerEvent.timer =
      if e.isSome then
        { T with done := true, err := e, evals := T.evals + 1, world := w1 }
      else if T.stopOnFailure && decide (st = Failure) then
        { T with done := true, evals := T.evals + 1, world := w1 }
      else
        { T with evals := T.evals + 1, world := w1 } := by
  simp [Ticker.step, hd, hc, he]

theorem ticker_run_timers (n : Nat) (T : Ticker ν σ ρ)
    (hd : T.done = false) (hc : T.crashed = none)
    (hpre : ∀ k, k < n → ∃ st, outcomeAt T.node T.world k = some (TickOutcome.returned st none) ∧
      (T.stopOnFailure = true → st ≠ Failure)) :
    T.run (List.replicate n TickerEvent.timer)
      = { T with evals := T.evals + n, world := worldAfter T.node T.world n } := by
  induction n with
  | zero => rfl
  | succ n ih =>
      rw [List.replicate_succ', ticker_run_append,
        ih (fun k hk => hpre k (Nat.lt_succ_of_lt hk)), ticker_run_single]
      rcases hpre n (Nat.lt_succ_self n) with ⟨st, ho, hst⟩
      have he := eval_eq T.node T.world n
      rw [ho] at he
      rw [ticker_step_timer { T with evals := T.evals + n, world := worldAfter T.node T.world n }
        st none _ hd hc he]
      by_cases hs : T.stopOnFailure = true
      · simp [hs, hst hs, Nat.add_assoc]
      · simp [hs, Nat.add_assoc]

/-- C8: a `NewTickerStopOnFailure` ticker whose evaluation returns
`(Success, nil)` on the periods `1..n` and, on period `N = n + 1`, a status
`Failure` or a non-nil error: after each of the first `n` periods `Done()` is
still open and the evaluation has been invoked once per period; after period
`N` `Done()` is closed, the evaluation has been invoked exactly `N` times, and
`Err()` is the error returned on period `N` (nil for `(Failure, nil)`, the
returned error otherwise); nothing that happens later changes that or invokes
the evaluation again. -/
theorem stopOnFailure_stops_on_first_failure (ctx : Option Context) (d : Int)
    (node : Node ν σ ρ) (w : σ) (T : Ticker ν σ ρ) (n : Nat) (s : Status) (e : error)
    (hT : NewTickerStopOnFailure ctx d (some node) w = .ok T)
    (hpre : ∀ k, k < n → outcomeAt node w k = some (TickOutcome.returned Success none))
    (hlast : outcomeAt node w n = some (TickOutcome.returned s e))
    (hterm : s = Failure ∨ e ≠ none) :
    (∀ k, k ≤ n → (T.run (List.replicate k TickerEvent.timer)).done = false ∧
        (T.run (List.replicate k TickerEvent.timer)).evals = k) ∧
    (T.run (List.replicate (n + 1) TickerEvent.timer)).done = true ∧
    (T.run (List.replicate (n + 1) TickerEvent.timer)).evals = n + 1 ∧
    (T.run (List.replicate (n + 1) TickerEvent.timer)).err = e ∧
    (s = Failure → e = none → (T.run (List.replicate (n + 1) TickerEvent.timer)).err = none) ∧
    (∀ evs : List TickerEvent,
        T.run (List.replicate (n + 1) TickerEvent.timer ++ evs)
          = T.run (List.replicate (n + 1) TickerEvent.timer)) := by
  rcases NewTickerStopOnFailure_ok_inv ctx d (some node) w T hT with ⟨c, n2, _, _, hn, hTeq⟩
  cases hn
  subst hTeq
  have hS : Success ≠ Failure := by decide
  have hrun : ∀ k, k ≤ n →
      ({ ctx := c, duration := d, node := node, stopOnFailure := true, done := false,
         err := none, evals := 0, crashed := none, world := w } : Ticker ν σ ρ).run
          (List.replicate k TickerEvent.timer)
        = { ctx := c, duration := d, node := node, stopOnFailure := true, done := false,
            err := none, evals := k, crashed := none, world := worldAfter node w k } := by
    intro k hk
    rw [ticker_run_timers k _ rfl rfl
      (fun j hj => ⟨Success, hpre j (Nat.lt_of_lt_of_le hj hk), fun _ => hS⟩)]
    simp
  have hfin :
      ({ ctx := c, duration := d, node := node, stopOnFailure := true, done := false,
         err := none, evals := 0, crashed := none, world := w } : Ticker ν σ ρ).run
          (List.replicate (n + 1) TickerEvent.timer)
        = { ctx := c, duration := d, node := node, stopOnFailure := true, done := true,
            err := e, evals := n + 1, crashed := none, world := worldAfter node w (n + 1) } := by
    rw [List.replicate_succ', ticker_run_append, hrun n (Nat.le_refl n), ticker_run_single]
    have he := eval_eq node w n
    rw [hlast] at he
    rw [ticker_step_timer _ s e _ rfl rfl he]
    cases e with
    | none =>
        rcases hterm with hs | hne
        · simp [hs]
        · exact absurd rfl hne
    | some x => simp
  refine ⟨?_, ?_, ?_, ?_, ?_, ?_⟩
  · intro k hk
    rw [hrun k hk]
    exact ⟨rfl, rfl⟩
  · rw [hfin]
  · rw [hfin]
  · rw [hfin]
  · intro _ he
    rw [hfin]
    exact he
  · intro evs
    rw [ticker_run_append]
    exact ticker_run_of_done evs _ (by rw [hfin])

/-- The witness of C8: the ticker of `TestNewTickerStopOnFailure_success`, whose
fifth evaluation returns `(Failure, nil)`. -/
theorem stopOnFailure_stops_on_first_failure_witness :
    (NewTickerStopOnFailure (some ⟨0⟩) 50000000 (some stopOnFailureSuccessNode) 0
      = .ok { ctx := ⟨0⟩, duration := 50000000, node := stopOnFailureSuccessNode,
              stopOnFailure := true, done := false, err := none, evals := 0,
              crashed := none, world := 0 }) ∧
    (({ ctx := ⟨0⟩, duration := 50000000, node := stopOnFailureSuccessNode,
        stopOnFailure := true, done := false, err := none, evals := 0,
        crashed := none, world := 0 } : Ticker (Option Unit) Nat String).run
        (List.replicate 5 TickerEvent.timer)).done = true ∧
    (({ ctx := ⟨0⟩, duration := 50000000, node := stopOnFailureSuccessNode,
        stopOnFailure := true, done := false, err := none, evals := 0,
        crashed := none, world := 0 } : Ticker (Option Unit) Nat String).run
        (List.replicate 5 TickerEvent.timer)).err = none :=
  ⟨rfl,
   (stopOnFailure_stops_on_first_failure (some ⟨0⟩) 50000000 stopOnFailureSuccessNode 0 _ 4
      Failure none rfl (by intro k hk; interval_cases k <;> rfl) rfl (Or.inl rfl)).2.1,
   (stopOnFailure_stops_on_first_failure (some ⟨0⟩) 50000000 stopOnFailureSuccessNode 0 _ 4
      Failure none rfl (by intro k hk; interval_cases k <;> rfl) rfl (Or.inl rfl)).2.2.2.1⟩

/-- C9: a `NewTicker` ticker whose evaluation returns a non-nil error `e` on
period `n + 1`, with any status beside it, after `n` periods that returned no
error, and with no stop request and no context event in between: `Done()` is
open up to period `n`, closed after period `n + 1`, and `Err()` is then `e`
itself; later events do not change it. -/
theorem NewTicker_stops_on_error (ctx : Option Context) (d : Int)
    (node : Node ν σ ρ) (w : σ) (T : Ticker ν σ ρ) (n : Nat) (st : Status) (e : GoError)
    (hT : NewTicker ctx d (some node) w = .ok T)
    (hpre : ∀ k, k < n → ∃ s, outcomeAt node w k = some (TickOutcome.returned s none))
    (hlast : outcomeAt node w n = some (TickOutcome.returned st (some e))) :
    (∀ k, k ≤ n → (T.run (List.replicate k TickerEvent.timer)).done = false) ∧
    (T.run (List.replicate (n + 1) TickerEvent.timer)).done = true ∧
    (T.run (List.replicate (n + 1) TickerEvent.timer)).err = some e ∧
    (∀ evs : List TickerEvent,
        (T.run (List.replicate (n + 1) TickerEvent.timer ++ evs)).done = true ∧
        (T.run (List.replicate (n + 1) TickerEvent.timer ++ evs)).err = some e) := by
  rcases NewTicker_ok_inv ctx d (some node) w T hT with ⟨c, n2, _, _, hn, hTeq⟩
  cases hn
  subst hTeq
  have hrun : ∀ k, k ≤ n →
      ({ ctx := c, duration := d, node := node, stopOnFailure := false, done := false,
         err := none, evals := 0, crashed := none, world := w } : Ticker ν σ ρ).run
          (List.replicate k TickerEvent.timer)
        = { ctx := c, duration := d, node := node, stopOnFailure := false, done := false,
            err := none, evals := k, crashed := none, world := worldAfter node w k } := by
    intro k hk
    rw [ticker_run_timers k _ rfl rfl
      (fun j hj => by
        rcases hpre j (Nat.lt_of_lt_of_le hj hk) with ⟨s, hs⟩
        exact ⟨s, hs, fun h => by cases h⟩)]
    simp
  have hfin :
      ({ ctx := c, duration := d, node := node, stopOnFailure := false, done := false,
         err := none, evals := 0, crashed := none, world := w } : Ticker ν σ ρ).run
          (List.replicate (n + 1) TickerEvent.timer)
        = { ctx := c, duration := d, node := node, stopOnFailure := false, done := true,
            err := some e, evals := n + 1, crashed := none,
            world := worldAfter node w (n + 1) } := by
    rw [List.replicate_succ', ticker_run_append, hrun n (Nat.le_refl n), ticker_run_single]
    have he := eval_eq node w n
    rw [hlast] at he
    rw [ticker_step_timer _ st (some e) _ rfl rfl he]
    simp
  refine ⟨?_, ?_, ?_, ?_⟩
  · intro k hk
    rw [hrun k hk]
  · rw [hfin]
  · rw [hfin]
  · intro evs
    rw [ticker_run_append, ticker_run_of_done evs _ (by rw [hfin]), hfin]
    exact ⟨rfl, rfl⟩

/-- The witness of C9: the ticker of `TestNewTicker_runError`, whose first
evaluation returns `0, expected`. -/
theorem NewTicker_stops_on_error_witness :
    (NewTicker (some ⟨0⟩) 1000000 (some runErrorNode) ()
      = .ok { ctx := ⟨0⟩, duration := 1000000, node := runErrorNode,
              stopOnFailure := false, done := false, err := none, evals := 0,
              crashed := none, world := () }) ∧
    (({ ctx := ⟨0⟩, duration := 1000000, node := runErrorNode,
        stopOnFailure := false, done := false, err := none, evals := 0,
        crashed := none, world := () } : Ticker Unit Unit String).run
        (List.replicate 1 TickerEvent.timer)).err = some ⟨"some_error"⟩ :=
  ⟨rfl,
   (NewTicker_stops_on_error (some ⟨0⟩) 1000000 runErrorNode () _ 0 ⟨0⟩ ⟨"some_error"⟩ rfl
      (by intro k hk; omega) rfl).2.2.1⟩

theorem ticker_step_origin (node : Node ν σ ρ) (w : σ) (T : Ticker ν σ ρ) (m : Nat)
    (ev : TickerEvent) (hn : T.node = node) (hw : T.world = worldAfter node w m)
    (hs : T.stopOnFailure = false) :
    (T.step ev).node = node ∧ (T.step ev).stopOnFailure = false ∧
    (∃ m2, (T.step ev).world = worldAfter node w m2) ∧
    (∀ e, (T.step ev).err = some e →
        T.err = some e ∨ ev = TickerEvent.ctxDone e ∨
        ∃ k, (∃ st, outcomeAt node w k = some (TickOutcome.returned st (some e))) ∨
             (outcomeAt node w k = none ∧ e = nilTickError)) ∧
    ((T.step ev).done = true →
        T.done = true ∨ ev = TickerEvent.stop ∨ (∃ e, ev = TickerEvent.ctxDone e) ∨
        ∃ k, (∃ st e, outcomeAt node w k = some (TickOutcome.returned st (some e))) ∨
             outcomeAt node w k = none) := by
  by_cases hd : T.done = true
  · rw [ticker_step_of_done T ev hd]
    exact ⟨hn, hs, ⟨m, hw⟩, fun e h => Or.inl h, fun _ => Or.inl hd⟩
  · have hd2 : T.done = false := by simpa using hd
    cases hc : T.crashed with
    | some r =>
        have hstep : T.step ev = T := by simp [Ticker.step, hd2, hc]
        rw [hstep]
        exact ⟨hn, hs, ⟨m, hw⟩, fun e h => Or.inl h, fun h => Or.inl h⟩
    | none =>
        cases ev with
        | stop =>
            have hstep : T.step TickerEvent.stop = { T with done := true } := by
              simp [Ticker.step, hd2, hc]
            rw [hstep]
            exact ⟨hn, hs, ⟨m, hw⟩, fun e h => Or.inl h, fun _ => Or.inr (Or.inl rfl)⟩
        | ctxDone e0 =>
            have hstep : T.step (TickerEvent.ctxDone e0)
                = { T with done := true, err := some e0 } := by
              simp [Ticker.step, hd2, hc]
            rw [hstep]
            refine ⟨hn, hs, ⟨m, hw⟩, ?_, fun _ => Or.inr (Or.inr (Or.inl ⟨e0, rfl⟩))⟩
            intro e h
            simp only [Option.some.injEq] at h
            subst h
            exact Or.inr (Or.inl rfl)
        | timer =>
            have he : Node.eval T.node T.world
                = (outcomeAt node w m, worldAfter node w (m + 1)) := by
              rw [hn, hw]
              rfl
            cases ho : outcomeAt node w m with
            | none =>
                rw [ho] at he
                have hstep : T.step TickerEvent.timer
                    = { T with done := true, err := some nilTickError,
                               world := worldAfter node w (m + 1) } := by
                  simp [Ticker.step, hd2, hc, he]
                rw [hstep]
                refine ⟨hn, hs, ⟨m + 1, rfl⟩, ?_,
                  fun _ => Or.inr (Or.inr (Or.inr ⟨m, Or.inr ho⟩))⟩
                intro e h
                simp only [Option.some.injEq] at h
                exact Or.inr (Or.inr ⟨m, Or.inr ⟨ho, h.symm⟩⟩)
            | some o =>
                cases o with
                | panicked r =>
                    rw [ho] at he
                    have hstep : T.step TickerEvent.timer
                        = { T with evals := T.evals + 1, crashed := some r,
                                   world := worldAfter node w (m + 1) } := by
                      simp [Ticker.step, hd2, hc, he]
                    rw [hstep]
                    exact ⟨hn, hs, ⟨m + 1, rfl⟩, fun e h => Or.inl h, fun h => Or.inl h⟩
                | returned st err =>
                    rw [ho] at he
                    rw [ticker_step_timer T st err _ hd2 hc he]
                    cases err with
                    | none =>
                        have hb : (T.stopOnFailure && decide (st = Failure)) = false := by
                          simp [hs]
                        simp only [hb, Option.isSome_none, Bool.false_eq_true, if_false]
                        exact ⟨hn, hs, ⟨m + 1, rfl⟩, fun e h => Or.inl h,
                          fun h => Or.inl h⟩
                    | some x =>
                        simp only [Option.isSome_some, if_true]
                        refine ⟨hn, hs, ⟨m + 1, rfl⟩, ?_,
                          fun _ => Or.inr (Or.inr (Or.inr ⟨m, Or.inl ⟨st, x, ho⟩⟩))⟩
                        intro e h
                        simp at h
                        subst h
                        exact Or.inr (Or.inr ⟨m, Or.inl ⟨st, ho⟩⟩)

theorem ticker_run_origin (node : Node ν σ ρ) (w : σ) (evs : List TickerEvent) :
    ∀ (T : Ticker ν σ ρ) (m : Nat), T.node = node → T.world = worldAfter node w m →
      T.stopOnFailure = false →
      (∀ e, (T.run evs).err = some e →
        T.err = some e ∨ TickerEvent.ctxDone e ∈ evs ∨
        ∃ k, (∃ st, outcomeAt node w k = some (TickOutcome.returned st (some e))) ∨
             (outcomeAt node w k = none ∧ e = nilTickError)) ∧
      ((T.run evs).done = true →
        T.done = true ∨ TickerEvent.stop ∈ evs ∨ (∃ e, TickerEvent.ctxDone e ∈ evs) ∨
        ∃ k, (∃ st e, outcomeAt node w k = some (TickOutcome.returned st (some e))) ∨
             outcomeAt node w k = none) := by
  induction evs with
  | nil =>
      intro T m _ _ _
      exact ⟨fun e h => Or.inl h, fun h => Or.inl h⟩
  | cons ev evs ih =>
      intro T m hn hw hs
      rcases ticker_step_origin node w T m ev hn hw hs with ⟨hn2, hs2, ⟨m2, hw2⟩, herr, hdone⟩
      rcases ih (T.step ev) m2 hn2 hw2 hs2 with ⟨ih1, ih2⟩
      constructor
      · intro e h
        rcases ih1 e h with h1 | h1 | h1
        · rcases herr e h1 with h2 | h2 | h2
          · exact Or.inl h2
          · exact Or.inr (Or.inl (by rw [h2]; exact List.mem_cons_self _ _))
          · exact Or.inr (Or.inr h2)
        · exact Or.inr (Or.inl (List.mem_cons_of_mem _ h1))
        · exact Or.inr (Or.inr h1)
      · intro h
        rcases ih2 h with h1 | h1 | ⟨e, h1⟩ | h1
        · rcases hdone h1 with h2 | h2 | ⟨e, h2⟩ | h2
          · exact Or.inl h2
          · exact Or.inr (Or.inl (by rw [h2]; exact List.mem_cons_self _ _))
          · exact Or.inr (Or.inr (Or.inl ⟨e, by rw [h2]; exact List.mem_cons_self _ _⟩))
          · exact Or.inr (Or.inr (Or.inr h2))
        · exact Or.inr (Or.inl (List.mem_cons_of_mem _ h1))
        · exact Or.inr (Or.inr (Or.inl ⟨e, List.mem_cons_of_mem _ h1⟩))
        · exact Or.inr (Or.inr (Or.inr h1))

/-- C10, as stated, fails: the `NewTicker` ticker of `TestNewTicker_runError`,
with no stop request and no context event, has `Done()` closed after its first
period, `Err()` is the evaluation's error, and a second timer tick does not
evaluate the target again. -/
theorem NewTicker_runError_closes_done :
    ∃ T : Ticker Unit Unit String,
      NewTicker (some ⟨0⟩) 1000000 (some runErrorNode) () = .ok T ∧
      (T.run [TickerEvent.timer]).done = true ∧
      (T.run [TickerEvent.timer]).err = some ⟨"some_error"⟩ ∧
      (T.run [TickerEvent.timer, TickerEvent.timer]).evals = 1 :=
  ⟨_, rfl, rfl, rfl, rfl⟩

/-- C10, amended: for a `NewTicker` ticker no status stops the loop.  While the
evaluations return a nil error (periods `1..n`, with `Success`, `Failure` or
any other status) `Done()` stays open, `Err()` stays nil and every period is
evaluated; a stop request then closes `Done()` with a nil `Err()`, a context
event closes it with the context's error.  Over every sequence of events,
`Done()` is closed only after a stop request, a context event, or a period
whose evaluation returned a non-nil error or whose target had no evaluation
function; and `Err()` is non-nil only when `Done()` is closed and the error is
the context's error of a context event, or the error returned by an
evaluation, or the no-evaluation-function error. -/
theorem NewTicker_continues_on_status (ctx : Option Context) (d : Int)
    (node : Node ν σ ρ) (w : σ) (T : Ticker ν σ ρ) (n : Nat)
    (hT : NewTicker ctx d (some node) w = .ok T)
    (hpre : ∀ k, k < n → ∃ s, outcomeAt node w k = some (TickOutcome.returned s none)) :
    (∀ k, k ≤ n → (T.run (List.replicate k TickerEvent.timer)).done = false ∧
        (T.run (List.replicate k TickerEvent.timer)).evals = k ∧
        (T.run (List.replicate k TickerEvent.timer)).err = none) ∧
    ((T.run (List.replicate n TickerEvent.timer ++ [TickerEvent.stop])).done = true ∧
      (T.run (List.replicate n TickerEvent.timer ++ [TickerEvent.stop])).err = none) ∧
    (∀ e : GoError,
      (T.run (List.replicate n TickerEvent.timer ++ [TickerEvent.ctxDone e])).done = true ∧
      (T.run (List.replicate n TickerEvent.timer ++ [TickerEvent.ctxDone e])).err = some e) ∧
    (∀ evs : List TickerEvent, (T.run evs).done = true →
        TickerEvent.stop ∈ evs ∨ (∃ e, TickerEvent.ctxDone e ∈ evs) ∨
        ∃ k, (∃ st e, outcomeAt node w k = some (TickOutcome.returned st (some e))) ∨
             outcomeAt node w k = none) ∧
    (∀ (evs : List TickerEvent) (e : GoError), (T.run evs).err = some e →
        TickerEvent.ctxDone e ∈ evs ∨
        ∃ k, (∃ st, outcomeAt node w k = some (TickOutcome.returned st (some e))) ∨
             (outcomeAt node w k = none ∧ e = nilTickError)) := by
  rcases NewTicker_ok_inv ctx d (some node) w T hT with ⟨c, n2, _, _, hn, hTeq⟩
  cases hn
  subst hTeq
  have hrun : ∀ k, k ≤ n →
      ({ ctx := c, duration := d, node := node, stopOnFailure := false, done := false,
         err := none, evals := 0, crashed := none, world := w } : Ticker ν σ ρ).run
          (List.replicate k TickerEvent.timer)
        = { ctx := c, duration := d, node := node, stopOnFailure := false, done := false,
            err := none, evals := k, crashed := none, world := worldAfter node w k } := by
    intro k hk
    rw [ticker_run_timers k _ rfl rfl
      (fun j hj => by
        rcases hpre j (Nat.lt_of_lt_of_le hj hk) with ⟨s, hs⟩
        exact ⟨s, hs, fun h => by cases h⟩)]
    simp
  refine ⟨?_, ?_, ?_, ?_, ?_⟩
  · intro k hk
    rw [hrun k hk]
    exact ⟨rfl, rfl, rfl⟩
  · rw [ticker_run_append, hrun n (Nat.le_refl n)]
    exact ⟨rfl, rfl⟩
  · intro e
    rw [ticker_run_append, hrun n (Nat.le_refl n)]
    exact ⟨rfl, rfl⟩
  · intro evs h
    rcases (ticker_run_origin node w evs _ 0 rfl rfl rfl).2 h with h1 | h1
    · cases h1
    · exact h1
  · intro evs e h
    rcases (ticker_run_origin node w evs _ 0 rfl rfl rfl).1 e h with h1 | h1
    · cases h1
    · exact h1

/-- The witness of C10, amended: the ticker of `TestNewTicker_runCancel`, whose
evaluations return `Success, nil`, stopped by its context after four periods. -/
theorem NewTicker_continues_on_status_witness :
    (NewTicker (some ⟨0⟩) 1000000 (some runCancelNode) ()
      = .ok { ctx := ⟨0⟩, duration := 1000000, node := runCancelNode,
              stopOnFailure := false, done := false, err := none, evals := 0,
              crashed := none, world := () }) ∧
    (({ ctx := ⟨0⟩, duration := 1000000, node := runCancelNode,
        stopOnFailure := false, done := false, err := none, evals := 0,
        crashed := none, world := () } : Ticker Unit Unit String).run
        (List.replicate 4 TickerEvent.timer
          ++ [TickerEvent.ctxDone ⟨"context deadline exceeded"⟩])).err
      = some ⟨"context deadline exceeded"⟩ :=
  ⟨rfl,
   ((NewTicker_continues_on_status (some ⟨0⟩) 1000000 runCancelNode () _ 4 rfl
      (by intro k _; exact ⟨Success, rfl⟩)).2.2.1 ⟨"context deadline exceeded"⟩).2⟩

end TickerTheorems

end behaviortree
